import Mathlib

/-!
Shallow embedding of the psq PostgreSQL monitoring TUI (Go) used to check the
natural-language specification against the source.

Go strings are modelled as lists of characters (`GoStr`); Go `int` values are
modelled as `Int` (or `Nat` where the source maintains non-negativity);
Go maps from string to int are modelled as association lists; the SQLite
query store is modelled as a list of records keyed by name.
-/

namespace PSQ

/-- A Go string, modelled as its list of characters. -/
abbrev GoStr := List Char

/-- Shorthand to write `GoStr` literals. -/
def gs (s : String) : GoStr := s.toList

/-! ### Character classes

`isGoRegexSpace` is the character class of Go regexp (RE2) `\s`,
namely `[\t\n\f\r ]`.  `isUnicodeSpace` is `unicode.IsSpace` restricted to
Latin-1, the class used by Go `strings.TrimSpace`. -/

/-- RE2 whitespace class: the characters matched by the Go regexp `\s`. -/
def isGoRegexSpace (c : Char) : Bool :=
  c == '\t' || c == '\n' || c == '\x0c' || c == '\r' || c == ' '

/-- Go `unicode.IsSpace` (Latin-1 range), used by `strings.TrimSpace`. -/
def isUnicodeSpace (c : Char) : Bool :=
  c == '\t' || c == '\n' || c == '\x0b' || c == '\x0c' || c == '\r' || c == ' ' ||
    c == '\u0085' || c == ' '

/-- Go `strings.ReplaceAll(s, string(f), string(t))` for single characters. -/
def replaceAllChar (f t : Char) (s : GoStr) : GoStr :=
  s.map (fun c => if c = f then t else c)

/-- One left-to-right pass of the Go regexp replacement
`collapseSpaces.ReplaceAllString(s, " ")` where `collapseSpaces` is the
compiled regexp `\s{2,}` (src/active.go:73): every maximal run of two or more
RE2 whitespace characters is replaced by a single space.  `skipping = true`
means the scan is inside a run whose single replacement space has already
been emitted, so further run characters are dropped. -/
def collapseSpacesM : Bool → GoStr → GoStr
  | _, [] => []
  | true, c :: rest =>
    if isGoRegexSpace c then collapseSpacesM true rest
    else c :: collapseSpacesM false rest
  | false, c :: rest =>
    if isGoRegexSpace c then
      match rest with
      | [] => [c]
      | c2 :: _ =>
        if isGoRegexSpace c2 then ' ' :: collapseSpacesM true rest
        else c :: collapseSpacesM false rest
    else c :: collapseSpacesM false rest

/-- Go `collapseSpaces.ReplaceAllString(s, " ")` with the regexp `\s{2,}`
(src/active.go:73): scan from the start, outside any run. -/
def collapseSpaces (s : GoStr) : GoStr :=
  collapseSpacesM false s

/-- Go `strings.TrimSpace`: drop `unicode.IsSpace` characters from both ends. -/
def trimSpace (s : GoStr) : GoStr :=
  (s.dropWhile isUnicodeSpace).rdropWhile isUnicodeSpace

/-- src/active.go:76-81 `scrubNewlines`: replace `\n` and `\r` with spaces,
collapse runs of whitespace, and trim. -/
def scrubNewlines (s : GoStr) : GoStr :=
  trimSpace (collapseSpaces (replaceAllChar '\r' ' ' (replaceAllChar '\n' ' ' s)))

/-- No two adjacent characters are both RE2 whitespace: every whitespace run
has length one. -/
def noDoubleWS (s : GoStr) : Prop :=
  List.Chain' (fun a b => ¬(isGoRegexSpace a = true ∧ isGoRegexSpace b = true)) s

/-- src/active.go:447-458 `truncate`: shorten a string to at most `max`
characters, marking truncation with `~`. -/
def truncate (s : GoStr) (max : Int) : GoStr :=
  if max ≤ 0 then []
  else if (s.length : Int) ≤ max then s
  else if max ≤ 1 then ['~']
  else s.take (max.toNat - 1) ++ ['~']

/-! ### The Active view (src/active.go) -/

/-- src/active.go:24-36 `ActiveProcess`: one row of `pg_stat_activity`. -/
structure ActiveProcess where
  PID : Int
  Username : GoStr
  Database : GoStr
  ClientAddr : GoStr
  State : GoStr
  QueryStart : GoStr
  Duration : GoStr
  WaitEvent : GoStr
  WaitEventType : GoStr
  Query : GoStr
  BackendType : GoStr
deriving DecidableEq, Inhabited

/-- src/active.go:15-21 `ActiveViewMode`. -/
inductive ActiveViewMode where
  | list
  | detail
  | confirmTerminate
deriving DecidableEq, Inhabited

/-- src/active.go:39-50 `ActiveView`.  `SelectedIndex` and `ScrollOffset` are
Go `int` fields that are kept non-negative by every handler in the source, so
they are modelled as `Nat`. -/
structure ActiveView where
  Processes : List ActiveProcess
  SelectedIndex : Nat
  SelectedPID : Int
  Mode : ActiveViewMode
  TerminateType : GoStr
  LastError : GoStr
  ScrollOffset : Nat
  DetailProcess : Option ActiveProcess
  DetailCompleted : Bool
  CopyStatus : GoStr
deriving DecidableEq, Inhabited

/-- src/active.go:214-219 `ensureVisible`. -/
def ensureVisible (av : ActiveView) : ActiveView :=
  if av.SelectedIndex < av.ScrollOffset then
    { av with ScrollOffset := av.SelectedIndex }
  else av

/-- src/active.go:156-169, the first block of `UpdateSelection`: while in
detail/confirm mode keep `DetailProcess` live, or mark it completed when its
PID left the list. -/
def updateDetail (av : ActiveView) (processes : List ActiveProcess) : ActiveView :=
  match av.DetailProcess with
  | none => av
  | some dp =>
    if av.DetailCompleted then av
    else
      match processes.find? (fun p => p.PID == dp.PID) with
      | some p => { av with DetailProcess := some p }
      | none => { av with DetailCompleted := true }

/-- src/active.go:181-192, the clamp branch of `UpdateSelection`: the selected
PID was not found, so clamp the index and re-anchor the PID. -/
def clampSelection (av : ActiveView) (processes : List ActiveProcess) : ActiveView :=
  let av :=
    if av.SelectedIndex ≥ processes.length then
      if processes.length > 0 then
        { av with SelectedIndex := processes.length - 1 }
      else
        { av with SelectedIndex := 0 }
    else av
  let av :=
    if processes.length > 0 then
      { av with SelectedPID := (processes.getD av.SelectedIndex default).PID }
    else av
  ensureVisible av

/-- src/active.go:152-193 `ActiveView.UpdateSelection`: preserve the selected
PID across a data refresh, re-deriving the index from the PID when present and
clamping otherwise. -/
def UpdateSelection (av : ActiveView) (processes : List ActiveProcess) : ActiveView :=
  let av := { av with Processes := processes }
  let av := updateDetail av processes
  if av.SelectedPID ≠ 0 then
    match processes.findIdx? (fun p => p.PID == av.SelectedPID) with
    | some i => ensureVisible { av with SelectedIndex := i }
    | none => clampSelection av processes
  else clampSelection av processes

/-! ### Queries and the query store -/

/-- src/model.go:48-53 `Query`.  `OrderPosition = none` models the nil
pointer: the query is hidden from the tab strip. -/
structure Query where
  Name : GoStr
  Description : GoStr
  SQL : GoStr
  OrderPosition : Option Int
deriving DecidableEq, Inhabited

/-- src/home.go:16-22 `HomeQuery`: the hardcoded Home tab. -/
def HomeQuery : Query :=
  { Name := gs "Home"
    Description := gs "Activity state counts overview"
    SQL := gs "SELECT state, COUNT(*) as count FROM pg_stat_activity WHERE state IS NOT NULL GROUP BY state ORDER BY count DESC;"
    OrderPosition := none }

/-- Lexicographic (byte-wise) order on strings, the SQLite BINARY collation
used by the store's ORDER BY clauses. -/
def goStrLt : GoStr → GoStr → Bool
  | [], [] => false
  | [], _ :: _ => true
  | _ :: _, [] => false
  | a :: as, b :: bs => if a = b then goStrLt as bs else decide (a < b)

/-- Sort key comparison of stored queries: `ORDER BY COALESCE(order_position,
999999), name` (src/unnamed/part_000 `LoadAllQueries`; `LoadQueries` orders
the non-null subset by `order_position, name`, which agrees). -/
def storeKeyLe (a b : Query) : Bool :=
  let ao := a.OrderPosition.getD 999999
  let bo := b.OrderPosition.getD 999999
  if ao = bo then !(goStrLt b.Name a.Name) else decide (ao < bo)

/-- Insert into a sorted list, keeping earlier elements first on ties. -/
def insertSorted (le : Query → Query → Bool) (x : Query) : List Query → List Query
  | [] => [x]
  | y :: ys => if le x y then x :: y :: ys else y :: insertSorted le x ys

/-- Sort a list of queries by the given comparison. -/
def sortQueries (le : Query → Query → Bool) (l : List Query) : List Query :=
  l.foldr (insertSorted le) []

/-- src/unnamed/part_000 `QueryDB.SaveQuery`: `INSERT OR REPLACE` keyed by the
primary key `name`. -/
def upsert : List Query → Query → List Query
  | [], q => [q]
  | r :: rest, q => if r.Name = q.Name then q :: rest else r :: upsert rest q

/-- src/unnamed/part_000 `QueryDB.DeleteQuery`: `DELETE FROM queries WHERE
name = ?`. -/
def deleteByName : List Query → GoStr → List Query
  | [], _ => []
  | r :: rest, n => if r.Name = n then deleteByName rest n else r :: deleteByName rest n

/-- Modelled from the spec: the `loadQueries()` wrapper called by the session
controller after every save/delete is not among the provided sources (only its
callers are).  Per spec section 4.4, `list(visibleOnly=true)` filters out
entries with an absent display order and sorts by order then name, which is
also exactly `QueryDB.LoadQueries` in src/unnamed/part_000. -/
def loadQueriesM (store : List Query) : List Query :=
  sortQueries storeKeyLe (store.filter (fun q => decide (q.OrderPosition ≠ none)))

/-- Modelled from the spec: `list(visibleOnly=false)` of spec section 4.4 —
all entries, null orders sorted last (the `LoadAllQueries` COALESCE ordering
of src/unnamed/part_000). -/
def loadAllQueriesM (store : List Query) : List Query :=
  sortQueries storeKeyLe store

/-! ### Association-list model of the Go map `tempQueries` -/

/-- Lookup in the temporary-order map. -/
def lookupTemp : List (GoStr × Int) → GoStr → Option Int
  | [], _ => none
  | p :: rest, n => if p.1 = n then some p.2 else lookupTemp rest n

/-- Go map assignment `m[k] = v`. -/
def assocSet : List (GoStr × Int) → GoStr → Int → List (GoStr × Int)
  | [], n, v => [(n, v)]
  | p :: rest, n, v => if p.1 = n then (n, v) :: rest else p :: assocSet rest n v

/-- Go map `delete(m, k)`. -/
def assocErase : List (GoStr × Int) → GoStr → List (GoStr × Int)
  | [], _ => []
  | p :: rest, n => if p.1 = n then assocErase rest n else p :: assocErase rest n

/-! ### The session controller state (src/model.go `Model`)

Only the fields read or written by the handlers under verification are
modelled; the viewport, help, sparkline and text-generation fields are
presentation state that none of the claims concern.  The contents of the
global query store (`globalQueryDB`) are threaded through as the `store`
field.  Times are in milliseconds. -/

structure Model where
  queries : List Query
  allQueries : List Query
  tempQueries : List (GoStr × Int)
  selected : Int
  previousSelected : Int
  results : GoStr
  loading : Bool
  err : GoStr
  lastQuery : Query
  lastRefreshAt : Int
  searchMode : Bool
  searchQuery : GoStr
  filteredQueries : List Query
  editMode : Bool
  editQuery : Query
  nameInput : GoStr
  descInput : GoStr
  orderInput : GoStr
  sqlTextarea : GoStr
  showHelp : Bool
  store : List Query
deriving DecidableEq, Inhabited

/-- A Bubble Tea key message, modelled by whether its type is `KeyEscape` and
by its `String()` rendering. -/
structure KeyMsg where
  typeIsEscape : Bool
  str : GoStr
deriving DecidableEq, Inhabited

/-- src/model.go:79-124 `NewModel` (successful load path), with the built-in
Home tab prepended to the stored queries. -/
def initModel (store : List Query) : Model :=
  let queries := HomeQuery :: loadQueriesM store
  { queries := queries
    allQueries := HomeQuery :: loadAllQueriesM store
    tempQueries := []
    selected := 0
    previousSelected := 0
    results := gs "Select a query to run..."
    loading := false
    err := []
    lastQuery := default
    lastRefreshAt := 0
    searchMode := false
    searchQuery := []
    filteredQueries := queries
    editMode := false
    editQuery := default
    nameInput := []
    descInput := []
    orderInput := []
    sqlTextarea := []
    showHelp := false
    store := store }

/-- src/model.go:174-176 `Model.canRefresh`:
`time.Since(m.lastRefreshAt) >= 500*time.Millisecond`. -/
def canRefresh (m : Model) (now : Int) : Bool :=
  decide (500 ≤ now - m.lastRefreshAt)

/-- src/model.go:161-172 `Model.ensureValidSelection`. -/
def ensureValidSelection (m : Model) : Model :=
  if m.queries.length = 0 then { m with selected := 0 }
  else
    let m := if m.selected ≥ (m.queries.length : Int) then
        { m with selected := (m.queries.length : Int) - 1 } else m
    if m.selected < 0 then { m with selected := 0 } else m

/-- src/model.go:126-139 `Model.getNextTempOrder`. -/
def getNextTempOrder (m : Model) : Int :=
  let maxOrder := m.queries.foldl
    (fun acc q => match q.OrderPosition with
      | some o => if o > acc then o else acc
      | none => acc) 0
  let maxOrder := m.tempQueries.foldl (fun acc p => if p.2 > acc then p.2 else acc) maxOrder
  maxOrder + 1

/-- src/model.go:156-159 `Model.isTemporaryQuery`. -/
def isTemporaryQuery (m : Model) (queryName : GoStr) : Bool :=
  (lookupTemp m.tempQueries queryName).isSome

/-- src/model.go:141-154 `Model.addTemporaryQuery`: give a hidden query a
synthetic order position and append it to the visible tab list. -/
def addTemporaryQuery (m : Model) (query : Query) : Model :=
  if query.OrderPosition = none then
    let tempOrder := getNextTempOrder m
    let m := { m with tempQueries := assocSet m.tempQueries query.Name tempOrder }
    { m with queries := m.queries ++ [{ query with OrderPosition := some tempOrder }] }
  else m

/-- Go `strings.Contains(s, sub)`. -/
def containsSub (s sub : GoStr) : Bool :=
  if sub.isPrefixOf s then true
  else
    match s with
    | [] => false
    | _ :: rest => containsSub rest sub

/-- src/model.go:178-200 `Model.filterQueries`. -/
def filterQueries (m : Model) : Model :=
  if m.searchQuery = [] then { m with filteredQueries := m.allQueries }
  else
    let searchLower := m.searchQuery.map Char.toLower
    let filtered := m.allQueries.filter (fun query =>
      containsSub (query.Name.map Char.toLower) searchLower ||
        containsSub (query.Description.map Char.toLower) searchLower)
    let m := { m with filteredQueries := filtered }
    if m.selected ≥ (m.filteredQueries.length : Int) then { m with selected := 0 } else m

/-- src/handlers.go:109-170 `Model.handleSearchModeKeys`.  The returned
`Option Query` models the `tea.Cmd`: `some q` is the asynchronous execution
dispatch `m.runQuery(q)`, `none` is a nil command.  List indexing uses a
default value where Go would panic on an out-of-range index; the claims under
verification never reach that case. -/
def handleSearchModeKeys (m : Model) (msg : KeyMsg) : Model × Option Query :=
  if msg.typeIsEscape = true ∨ msg.str = gs "escape" ∨ msg.str = gs "esc" ∨
      msg.str = gs "ctrl+[" then
    let m := { m with searchMode := false, searchQuery := [], filteredQueries := m.queries }
    let m := if m.previousSelected < (m.queries.length : Int) then
        { m with selected := m.previousSelected } else m
    (ensureValidSelection m, none)
  else if msg.str = gs "enter" then
    if m.filteredQueries.length > 0 then
      let m := { m with searchMode := false }
      let selectedQuery := m.filteredQueries.getD m.selected.toNat default
      let m := addTemporaryQuery m selectedQuery
      let m := match m.queries.findIdx? (fun q =>
          decide (q.Name = selectedQuery.Name) && decide (q.SQL = selectedQuery.SQL)) with
        | some i => { m with selected := (i : Int) }
        | none => m
      ({ m with loading := true, err := [], results := [], lastQuery := selectedQuery },
        some selectedQuery)
    else (m, none)
  else if msg.str = gs "up" ∨ msg.str = gs "ctrl+k" then
    (if m.selected > 0 then { m with selected := m.selected - 1 } else m, none)
  else if msg.str = gs "down" ∨ msg.str = gs "ctrl+j" then
    (if m.selected < (m.filteredQueries.length : Int) - 1 then
        { m with selected := m.selected + 1 } else m, none)
  else if msg.str = gs "backspace" ∨ msg.str = gs "ctrl+h" then
    (if m.searchQuery.length > 0 then
        filterQueries { m with searchQuery := m.searchQuery.dropLast } else m, none)
  else
    (if msg.str.length = 1 then
        filterQueries { m with searchQuery := m.searchQuery ++ msg.str } else m, none)

/-- src/handlers.go:244-251, the `"enter", " ", "r"` arm of
`Model.handleNormalModeKeys`: manual refresh gated by the cooldown. -/
def handleRefreshKey (m : Model) (now : Int) : Model × Option Query :=
  if m.queries.length > 0 ∧ canRefresh m now = true then
    let m := ensureValidSelection m
    let q := m.queries.getD m.selected.toNat default
    ({ m with loading := true, err := [], lastQuery := q }, some q)
  else (m, none)

/-- src/handlers.go:365-373 `Model.handleQueryResult`: record the result text
and stamp `lastRefreshAt`; the returned `tea.Tick` (which schedules the next
tick, not a query) is not a query dispatch. -/
def handleQueryResult (m : Model) (msg : GoStr) (now : Int) : Model :=
  { m with results := msg, loading := false, lastRefreshAt := now }

/-- src/handlers.go:395-402 `Model.handleTickMsg`: the auto-refresh tick. -/
def handleTickMsg (m : Model) (now : Int) : Model × Option Query :=
  if m.queries.length > 0 ∧ canRefresh m now = true then
    ({ m with loading := true }, some m.lastQuery)
  else (m, none)

/-! ### The query editor (src/editor.go) -/

/-- Digit run to number, for Go `fmt.Sscanf` with `%d`. -/
def parseGoDigits (s : GoStr) : Option Nat :=
  let ds := s.takeWhile Char.isDigit
  if ds = [] then none
  else some (ds.foldl (fun a c => a * 10 + (c.toNat - 48)) 0)

/-- Go `fmt.Sscanf(orderStr, "%d", &pos)` succeeding with `n == 1`: an
optionally signed decimal prefix; trailing non-digits are ignored. -/
def parseGoInt : GoStr → Option Int
  | '-' :: rest => (parseGoDigits rest).map (fun n => -(n : Int))
  | '+' :: rest => (parseGoDigits rest).map (fun n => (n : Int))
  | s => (parseGoDigits s).map (fun n => (n : Int))

/-- Go `fmt.Sprintf` of an integer with the verb for decimals. -/
def intToGoStr (i : Int) : GoStr := gs (toString i)

/-- src/editor.go:12-46 `Model.initEditor`, restricted to the input values. -/
def initEditor (m : Model) (query : Query) : Model :=
  { m with
    nameInput := query.Name
    descInput := query.Description
    orderInput := match query.OrderPosition with
      | some p => intToGoStr p
      | none => []
    sqlTextarea := query.SQL }

/-- src/handlers.go:195-202, the `"s"` arm of `Model.handleNormalModeKeys`:
enter search mode. -/
def pressSearchKey (m : Model) : Model :=
  { m with
    previousSelected := m.selected
    searchMode := true
    searchQuery := []
    filteredQueries := m.allQueries
    selected := 0 }

/-- src/handlers.go:266-273, the `"n"` arm of `Model.handleNormalModeKeys`:
open the editor on an empty query. -/
def pressNewKey (m : Model) : Model :=
  let m := { m with previousSelected := m.selected, editMode := true, editQuery := default }
  initEditor m default

/-- src/editor.go:122-146, the construction of `newQuery` inside
`Model.handleSaveQuery`: an empty name field falls back to "New Query", and
the order field is parsed, ignoring a still-displayed temporary order. -/
def saveNewQuery (m : Model) : Query :=
  let name := if m.nameInput = [] then gs "New Query" else m.nameInput
  let newQuery0 : Query :=
    { Name := name, Description := m.descInput, SQL := m.sqlTextarea, OrderPosition := none }
  let orderStr := trimSpace m.orderInput
  if orderStr ≠ [] then
    match parseGoInt orderStr with
    | some pos =>
      if ¬ isTemporaryQuery m m.editQuery.Name = true ∨
          orderStr ≠ intToGoStr ((lookupTemp m.tempQueries m.editQuery.Name).getD 0) then
        { newQuery0 with OrderPosition := some pos }
      else newQuery0
    | none => newQuery0
  else newQuery0

/-- src/editor.go:121-196 `Model.handleSaveQuery` (with a live store, i.e.
`globalQueryDB != nil`, and a successful save and reload). -/
def handleSaveQuery (m : Model) : Model × Option Query :=
  let newQuery := saveNewQuery m
  let isNewQuery := m.editQuery.Name = []
  let hadPosition := m.editQuery.OrderPosition ≠ none
  let willHavePosition := newQuery.OrderPosition ≠ none
  let store := upsert m.store newQuery
  let m2 := { m with store := store, queries := loadQueriesM store, allQueries := loadAllQueriesM store }
  let m3 := if (isNewQuery ∧ ¬ willHavePosition) ∨ (¬ isNewQuery ∧ hadPosition ∧ ¬ willHavePosition)
    then addTemporaryQuery m2 newQuery else m2
  let m4 := match m3.queries.findIdx? (fun q => decide (q.Name = newQuery.Name)) with
    | some i => { m3 with selected := (i : Int) }
    | none => m3
  let m5 := ensureValidSelection m4
  ({ m5 with editMode := false, loading := true, err := [], lastQuery := newQuery }, some newQuery)

/-- src/editor.go:73-119 `Model.handleDeleteQuery` (with a live store and a
successful delete and reload). -/
def handleDeleteQuery (m : Model) : Model × Option Query :=
  if m.editQuery.Name ≠ [] then
    let store := deleteByName m.store m.editQuery.Name
    let m := { m with store := store }
    let m := if isTemporaryQuery m m.editQuery.Name = true then
        { m with tempQueries := assocErase m.tempQueries m.editQuery.Name } else m
    let m := { m with queries := loadQueriesM store, allQueries := loadAllQueriesM store }
    let m := if m.previousSelected ≥ (m.queries.length : Int) ∧ m.queries.length > 0 then
        { m with previousSelected := (m.queries.length : Int) - 1 } else m
    let m := { m with editMode := false }
    let m := if m.previousSelected < (m.queries.length : Int) then
        { m with selected := m.previousSelected } else m
    (ensureValidSelection m, none)
  else (m, none)

/-- Session states reachable from a fresh session over an arbitrary initial
store, through the modelled handlers.  `typeEditor` summarizes a sequence of
ordinary typing keystrokes routed to the focus-cycled editor inputs
(src/editor.go:226-241): their cumulative effect is to set the four input
values.  Guards mirror the dispatch order of `Model.handleKeyMsg`
(src/handlers.go:78-107). -/
inductive Reachable : Model → Prop where
  | init (store : List Query) : Reachable (initModel store)
  | pressSearch {m : Model} : Reachable m → m.editMode = false → m.searchMode = false →
      Reachable (pressSearchKey m)
  | pressNew {m : Model} : Reachable m → m.editMode = false → m.searchMode = false →
      Reachable (pressNewKey m)
  | searchKey {m : Model} (msg : KeyMsg) : Reachable m → m.editMode = false →
      m.searchMode = true → Reachable (handleSearchModeKeys m msg).1
  | typeEditor {m : Model} (nameV descV orderV sqlV : GoStr) : Reachable m →
      m.editMode = true →
      Reachable { m with nameInput := nameV, descInput := descV,
                         orderInput := orderV, sqlTextarea := sqlV }
  | saveKey {m : Model} : Reachable m → m.editMode = true → Reachable (handleSaveQuery m).1
  | deleteKey {m : Model} : Reachable m → m.editMode = true → Reachable (handleDeleteQuery m).1

/-- The spec's temporary-order invariant: every name in the mapping has a
corresponding entry in the visible tab list. -/
def TempInvariant (m : Model) : Prop :=
  ∀ p ∈ m.tempQueries, p.1 ∈ m.queries.map Query.Name

/-! ### The connection-profile resolver (src/database.go) -/

/-- src/database.go:14-20 `DBConfig`. -/
structure DBConfig where
  Host : GoStr
  Port : GoStr
  Database : GoStr
  User : GoStr
  Password : GoStr
deriving DecidableEq, Inhabited

/-- The zero-valued `DBConfig{}`. -/
def emptyDBConfig : DBConfig := ⟨[], [], [], [], []⟩

/-- Membership in the cutset of Go `strings.Trim(line, "[]")`. -/
def isBracketChar (c : Char) : Bool := c == '[' || c == ']'

/-- Go `strings.Trim(line, "[]")`. -/
def trimBrackets (s : GoStr) : GoStr :=
  (s.dropWhile isBracketChar).rdropWhile isBracketChar

/-- Go `strings.SplitN(line, "=", 2)` when a separator exists: the text
before the first `=` and everything after it. -/
def splitFirstEq (line : GoStr) : Option (GoStr × GoStr) :=
  let pre := line.takeWhile (fun c => !(c == '='))
  if pre.length = line.length then none
  else some (pre, line.drop (pre.length + 1))

/-- src/database.go:52-63: apply one recognized `key = value` pair. -/
def applyConfigKey (cfg : DBConfig) (key value : GoStr) : DBConfig :=
  if key = gs "host" then { cfg with Host := value }
  else if key = gs "port" then { cfg with Port := value }
  else if key = gs "dbname" then { cfg with Database := value }
  else if key = gs "user" then { cfg with User := value }
  else if key = gs "password" then { cfg with Password := value }
  else cfg

/-- src/database.go:33-66, one iteration of the line loop of `getDBConfig`.
The state is the pair (currentService, config). -/
def processConfigLine (serviceName : GoStr) (st : GoStr × DBConfig) (rawLine : GoStr) :
    GoStr × DBConfig :=
  let line := trimSpace rawLine
  if line.isEmpty || (gs "#").isPrefixOf line then st
  else if (gs "[").isPrefixOf line && (gs "]").isSuffixOf line then
    let currentService := trimBrackets line
    if currentService = serviceName then (currentService, emptyDBConfig)
    else (currentService, st.2)
  else if st.1 = serviceName then
    match splitFirstEq line with
    | some kv => (st.1, applyConfigKey st.2 (trimSpace kv.1) (trimSpace kv.2))
    | none => st
  else st

/-- src/database.go:22-78 `getDBConfig` on a line-split file: fold the lines,
fail when no host was accumulated, default the port. -/
def getDBConfigLines (serviceName : GoStr) (lines : List GoStr) : Option DBConfig :=
  let st := lines.foldl (processConfigLine serviceName) ([], emptyDBConfig)
  let config := st.2
  if config.Host = [] then none
  else if config.Port = [] then some { config with Port := gs "5432" }
  else some config

/-- src/database.go:22-78 `getDBConfig`: split the file content on newlines
and resolve the named service. -/
def getDBConfig (serviceName : GoStr) (content : GoStr) : Option DBConfig :=
  getDBConfigLines serviceName (content.splitOn '\n')

/-- A line that `getDBConfig` treats as a section header for `serviceName`:
after trimming it starts with `[`, ends with `]`, and the bracket-trimmed text
is the service name. -/
def isHeaderFor (serviceName line : GoStr) : Prop :=
  (gs "[").isPrefixOf (trimSpace line) = true ∧
  (gs "]").isSuffixOf (trimSpace line) = true ∧
  trimBrackets (trimSpace line) = serviceName

/-! ### Concrete scenario data used by counterexamples and witnesses -/

/-- An `ActiveProcess` carrying only a PID. -/
def pidProcess (n : Int) : ActiveProcess :=
  { PID := n, Username := [], Database := [], ClientAddr := [], State := [],
    QueryStart := [], Duration := [], WaitEvent := [], WaitEventType := [],
    Query := [], BackendType := [] }

/-- A fresh `ActiveView` as produced by `NewActiveView` (src/active.go:67-71). -/
def newActiveView : ActiveView :=
  { Processes := [], SelectedIndex := 0, SelectedPID := 0, Mode := .list,
    TerminateType := [], LastError := [], ScrollOffset := 0, DetailProcess := none,
    DetailCompleted := false, CopyStatus := [] }

/-- An `ActiveView` whose selection anchor 999 is about to vanish from the
process list. -/
def clampWitnessView : ActiveView :=
  { newActiveView with SelectedIndex := 5, SelectedPID := 999 }

/-- A stored query with a real order position, used as the single tab of the
refresh scenarios. -/
def demoQuery : Query :=
  { Name := gs "Q", Description := [], SQL := gs "SELECT 1", OrderPosition := some 1 }

/-- A session over a store holding `demoQuery`, with the last refresh at time
0 ms. -/
def refreshDemoModel : Model := initModel [demoQuery]

/-- The refresh scenario session while search mode is open. -/
def searchTickModel : Model := { refreshDemoModel with searchMode := true }

/-- A session in search mode whose filter currently matches nothing. -/
def searchEmptyModel : Model :=
  { refreshDemoModel with
    searchMode := true
    searchQuery := gs "zzz"
    filteredQueries := [] }

/-- The Enter key message. -/
def enterKeyMsg : KeyMsg := { typeIsEscape := false, str := gs "enter" }

/-- The Down key message. -/
def downKeyMsg : KeyMsg := { typeIsEscape := false, str := gs "down" }

/-- An editor session about to save a new query whose name field is empty. -/
def emptyNameModel : Model :=
  { initModel [] with
    editMode := true
    nameInput := []
    descInput := gs "d"
    orderInput := []
    sqlTextarea := gs "SELECT 2" }

/-- Store for the temporary-order scenario: a visible query X (order 1) and a
hidden query Y. -/
def c8Store : List Query :=
  [ { Name := gs "X", Description := [], SQL := gs "sx", OrderPosition := some 1 },
    { Name := gs "Y", Description := [], SQL := gs "sy", OrderPosition := none } ]

/-- Temporary-order scenario, step 1: fresh session over `c8Store`. -/
def c8s0 : Model := initModel c8Store

/-- Step 2: the user presses `s`, entering search mode. -/
def c8s1 : Model := pressSearchKey c8s0

/-- Step 3 and 4: the user presses Down twice, highlighting the hidden Y. -/
def c8s2 : Model := (handleSearchModeKeys c8s1 downKeyMsg).1

/-- Step 4: second Down. -/
def c8s3 : Model := (handleSearchModeKeys c8s2 downKeyMsg).1

/-- Step 5: Enter commits Y, promoting it with a temporary order. -/
def c8s4 : Model := (handleSearchModeKeys c8s3 enterKeyMsg).1

/-- Step 6: the user presses `n`, opening the editor on an empty query. -/
def c8s5 : Model := pressNewKey c8s4

/-- Step 7: the user types a name Z and an explicit order 3. -/
def c8s6 : Model :=
  { c8s5 with
    nameInput := gs "Z"
    descInput := []
    orderInput := gs "3"
    sqlTextarea := gs "sz" }

/-- Step 8: Ctrl+S saves Z; the reload drops the temporary Y from the tab
list while the mapping still holds it. -/
def c8final : Model := (handleSaveQuery c8s6).1

/-- A session used to witness the amended temporary-order properties: editing
a stored query X while a temporary query T is promoted. -/
def c8WitnessModel : Model :=
  { initModel c8Store with
    editMode := true
    editQuery := { Name := gs "X", Description := [], SQL := gs "sx", OrderPosition := some 1 }
    tempQueries := [(gs "T", 5)]
    nameInput := gs "X"
    descInput := []
    orderInput := gs "1"
    sqlTextarea := gs "sx" }

/-- A hidden query promoted in the amended temporary-order witness. -/
def c8WitnessHidden : Query :=
  { Name := gs "H", Description := [], SQL := gs "sh", OrderPosition := none }

/-! ## Theorems -/

/-! ### C3: `scrubNewlines` -/

/-- A character the replacement was targeting is gone afterwards. -/
theorem replaceAllChar_not_mem (f t : Char) (s : GoStr) (hft : f ≠ t) :
    f ∉ replaceAllChar f t s := by
  intro h
  obtain ⟨c, hc, hcf⟩ := List.mem_map.mp h
  by_cases hcf2 : c = f
  · rw [if_pos hcf2] at hcf
    exact hft hcf.symm
  · rw [if_neg hcf2] at hcf
    exact hcf2 hcf

/-- Characters of a replacement result come from the source or are the
replacement character. -/
theorem mem_replaceAllChar (f t c : Char) (s : GoStr) (h : c ∈ replaceAllChar f t s) :
    c ∈ s ∨ c = t := by
  obtain ⟨a, ha, hac⟩ := List.mem_map.mp h
  by_cases haf : a = f
  · rw [if_pos haf] at hac
    exact Or.inr hac.symm
  · rw [if_neg haf] at hac
    exact Or.inl (hac ▸ ha)

/-- Replacement of an absent character is the identity. -/
theorem replaceAllChar_eq_self (f t : Char) (s : GoStr) :
    f ∉ s → replaceAllChar f t s = s := by
  induction s with
  | nil => intro _; rfl
  | cons a rest ih =>
    intro h
    have ha : ¬ a = f := fun hf => h (by rw [hf]; exact List.mem_cons_self _ _)
    have hr : f ∉ rest := fun hf => h (List.mem_cons_of_mem _ hf)
    simp only [replaceAllChar, List.map_cons, if_neg ha]
    have hrest := ih hr
    simp only [replaceAllChar] at hrest
    rw [hrest]

/-- Characters of a collapse result come from the source or are spaces. -/
theorem mem_collapseSpacesM (b : Bool) (c : Char) (s : GoStr) :
    c ∈ collapseSpacesM b s → c ∈ s ∨ c = ' ' := by
  induction b, s using collapseSpacesM.induct with
  | case1 b =>
    intro h
    simp [collapseSpacesM] at h
  | case2 a rest ha ih =>
    intro h
    rw [show collapseSpacesM true (a :: rest) = collapseSpacesM true rest from by
      simp [collapseSpacesM, ha]] at h
    rcases ih h with h | h
    · exact Or.inl (List.mem_cons_of_mem _ h)
    · exact Or.inr h
  | case3 a rest ha ih =>
    intro h
    rw [show collapseSpacesM true (a :: rest) = a :: collapseSpacesM false rest from by
      simp [collapseSpacesM, ha]] at h
    rcases List.mem_cons.mp h with h | h
    · exact Or.inl (by rw [h]; exact List.mem_cons_self _ _)
    · rcases ih h with h | h
      · exact Or.inl (List.mem_cons_of_mem _ h)
      · exact Or.inr h
  | case4 a ha =>
    intro h
    rw [show collapseSpacesM false [a] = [a] from by simp [collapseSpacesM, ha]] at h
    exact Or.inl h
  | case5 a ha c2 tail hc2 ih =>
    intro h
    rw [show collapseSpacesM false (a :: c2 :: tail)
        = ' ' :: collapseSpacesM true (c2 :: tail) from by
      simp [collapseSpacesM, ha, hc2]] at h
    rcases List.mem_cons.mp h with h | h
    · exact Or.inr h
    · rcases ih h with h | h
      · exact Or.inl (List.mem_cons_of_mem _ h)
      · exact Or.inr h
  | case6 a ha c2 tail hc2 ih =>
    intro h
    rw [show collapseSpacesM false (a :: c2 :: tail)
        = a :: collapseSpacesM false (c2 :: tail) from by
      simp [collapseSpacesM, ha, hc2]] at h
    rcases List.mem_cons.mp h with h | h
    · exact Or.inl (by rw [h]; exact List.mem_cons_self _ _)
    · rcases ih h with h | h
      · exact Or.inl (List.mem_cons_of_mem _ h)
      · exact Or.inr h
  | case7 a rest ha ih =>
    intro h
    rw [show collapseSpacesM false (a :: rest) = a :: collapseSpacesM false rest from by
      simp [collapseSpacesM, ha]] at h
    rcases List.mem_cons.mp h with h | h
    · exact Or.inl (by rw [h]; exact List.mem_cons_self _ _)
    · rcases ih h with h | h
      · exact Or.inl (List.mem_cons_of_mem _ h)
      · exact Or.inr h

/-- Characters of a collapse result come from the source or are spaces
(wrapper for the entry mode). -/
theorem mem_collapseSpaces (c : Char) (s : GoStr) :
    c ∈ collapseSpaces s → c ∈ s ∨ c = ' ' :=
  mem_collapseSpacesM false c s

/-- In skipping mode the head of the collapse result is never whitespace. -/
theorem collapseSpacesM_head_true (s : GoStr) :
    ∀ c ∈ (collapseSpacesM true s).head?, isGoRegexSpace c = false := by
  induction s with
  | nil =>
    intro c hc
    simp [collapseSpacesM] at hc
  | cons a t ih =>
    intro c hc
    by_cases ha : isGoRegexSpace a = true
    · rw [show collapseSpacesM true (a :: t) = collapseSpacesM true t from by
        simp [collapseSpacesM, ha]] at hc
      exact ih c hc
    · rw [show collapseSpacesM true (a :: t) = a :: collapseSpacesM false t from by
        simp [collapseSpacesM, ha]] at hc
      simp only [List.head?_cons, Option.mem_def, Option.some.injEq] at hc
      subst hc
      simpa using ha

/-- In copying mode a non-whitespace head survives the collapse. -/
theorem collapseSpacesM_head_false (a : Char) (t : GoStr)
    (ha : isGoRegexSpace a = false) :
    (collapseSpacesM false (a :: t)).head? = some a := by
  simp [collapseSpacesM, ha]

/-- The collapse result never contains two adjacent whitespace characters. -/
theorem collapseSpacesM_chain (b : Bool) (s : GoStr) :
    noDoubleWS (collapseSpacesM b s) := by
  unfold noDoubleWS
  induction b, s using collapseSpacesM.induct with
  | case1 b => simp [collapseSpacesM]
  | case2 a rest ha ih =>
    rw [show collapseSpacesM true (a :: rest) = collapseSpacesM true rest from by
      simp [collapseSpacesM, ha]]
    exact ih
  | case3 a rest ha ih =>
    rw [show collapseSpacesM true (a :: rest) = a :: collapseSpacesM false rest from by
      simp [collapseSpacesM, ha]]
    rw [List.chain'_cons']
    refine ⟨?_, ih⟩
    intro y hy hcontra
    exact ha hcontra.1
  | case4 a ha => simp [collapseSpacesM, ha]
  | case5 a ha c2 tail hc2 ih =>
    rw [show collapseSpacesM false (a :: c2 :: tail)
        = ' ' :: collapseSpacesM true (c2 :: tail) from by
      simp [collapseSpacesM, ha, hc2]]
    rw [List.chain'_cons']
    refine ⟨?_, ih⟩
    intro y hy hcontra
    have hhd := collapseSpacesM_head_true (c2 :: tail) y hy
    rw [hhd] at hcontra
    exact absurd hcontra.2 (by simp)
  | case6 a ha c2 tail hc2 ih =>
    rw [show collapseSpacesM false (a :: c2 :: tail)
        = a :: collapseSpacesM false (c2 :: tail) from by
      simp [collapseSpacesM, ha, hc2]]
    rw [List.chain'_cons']
    refine ⟨?_, ih⟩
    intro y hy hcontra
    have hc2f : isGoRegexSpace c2 = false := by simpa using hc2
    have hhead := collapseSpacesM_head_false c2 tail hc2f
    rw [hhead] at hy
    simp only [Option.mem_def, Option.some.injEq] at hy
    subst hy
    exact absurd hcontra.2 (by simp [hc2f])
  | case7 a rest ha ih =>
    rw [show collapseSpacesM false (a :: rest) = a :: collapseSpacesM false rest from by
      simp [collapseSpacesM, ha]]
    rw [List.chain'_cons']
    refine ⟨?_, ih⟩
    intro y hy hcontra
    exact ha hcontra.1

/-- The collapse result never contains two adjacent whitespace characters
(wrapper for the entry mode). -/
theorem collapseSpaces_chain (s : GoStr) : noDoubleWS (collapseSpaces s) :=
  collapseSpacesM_chain false s

/-- Collapsing is the identity on lists with no two adjacent whitespace
characters. -/
theorem collapseSpacesM_eq_self (s : GoStr) :
    noDoubleWS s → collapseSpacesM false s = s := by
  unfold noDoubleWS
  induction s with
  | nil => intro _; simp [collapseSpacesM]
  | cons a t ih =>
    intro hch
    by_cases ha : isGoRegexSpace a = true
    · cases t with
      | nil => simp [collapseSpacesM, ha]
      | cons b t2 =>
        by_cases hb : isGoRegexSpace b = true
        · exact absurd ⟨ha, hb⟩ (List.chain'_cons.mp hch).1
        · rw [show collapseSpacesM false (a :: b :: t2)
              = a :: collapseSpacesM false (b :: t2) from by
            simp [collapseSpacesM, ha, hb]]
          rw [ih (List.chain'_cons.mp hch).2]
    · rw [show collapseSpacesM false (a :: t) = a :: collapseSpacesM false t from by
        simp [collapseSpacesM, ha]]
      rw [ih hch.tail]

/-- Collapsing is the identity on lists with no two adjacent whitespace
characters (wrapper for the entry mode). -/
theorem collapseSpaces_eq_self (s : GoStr) : noDoubleWS s → collapseSpaces s = s :=
  collapseSpacesM_eq_self s

/-- The trim result sits inside the original string. -/
theorem trimSpace_within (s : GoStr) : trimSpace s <:+: s := by
  obtain ⟨t, ht⟩ := List.rdropWhile_prefix isUnicodeSpace (s.dropWhile isUnicodeSpace)
  obtain ⟨u, hu⟩ := List.dropWhile_suffix (p := isUnicodeSpace) (l := s)
  refine ⟨u, t, ?_⟩
  show u ++ (s.dropWhile isUnicodeSpace).rdropWhile isUnicodeSpace ++ t = s
  rw [List.append_assoc, ht]
  exact hu

/-- Left-trimming an already trimmed string changes nothing. -/
theorem dropWhile_trimSpace (s : GoStr) :
    (trimSpace s).dropWhile isUnicodeSpace = trimSpace s := by
  rw [List.dropWhile_eq_self_iff]
  intro hl
  have hpre : trimSpace s <+: s.dropWhile isUnicodeSpace := List.rdropWhile_prefix _ _
  have hlen : 0 < (s.dropWhile isUnicodeSpace).length := lt_of_lt_of_le hl hpre.length_le
  have hz := List.dropWhile_get_zero_not (p := isUnicodeSpace) s hlen
  have hget : (s.dropWhile isUnicodeSpace).get ⟨0, hlen⟩ = (trimSpace s).get ⟨0, hl⟩ := by
    simp only [List.get_eq_getElem]
    exact (hpre.getElem hl).symm
  rw [hget] at hz
  exact hz

/-- Trimming is idempotent. -/
theorem trimSpace_idem (s : GoStr) : trimSpace (trimSpace s) = trimSpace s := by
  have h1 : trimSpace (trimSpace s) = (trimSpace s).rdropWhile isUnicodeSpace := by
    show ((trimSpace s).dropWhile isUnicodeSpace).rdropWhile isUnicodeSpace = _
    rw [dropWhile_trimSpace]
  rw [h1]
  show ((s.dropWhile isUnicodeSpace).rdropWhile isUnicodeSpace).rdropWhile isUnicodeSpace = _
  rw [List.rdropWhile_idempotent]
  rfl

/-- C3: `scrubNewlines` is idempotent, and its output witnesses the collapse
and trim behaviour: it contains no newline or carriage return, never two
adjacent RE2 whitespace characters (so every whitespace run has been
collapsed to a single character), and is a fixed point of trimming (leading
and trailing whitespace removed); the concrete conjunct shows interior runs
of whitespace-including-newlines becoming single spaces.  src/active.go:76-81
and the vectors of `TestScrubNewlines` (src/active_test.go). -/
theorem C3_scrubNewlines_idempotent (s : GoStr) :
    scrubNewlines (scrubNewlines s) = scrubNewlines s ∧
    '\n' ∉ scrubNewlines s ∧
    '\r' ∉ scrubNewlines s ∧
    noDoubleWS (scrubNewlines s) ∧
    trimSpace (scrubNewlines s) = scrubNewlines s ∧
    scrubNewlines (gs "SELECT  \n  1  \n  FROM  \n  t") = gs "SELECT 1 FROM t" := by
  have hsubset := (trimSpace_within
    (collapseSpaces (replaceAllChar '\r' ' ' (replaceAllChar '\n' ' ' s)))).sublist.subset
  have hn : '\n' ∉ scrubNewlines s := by
    intro h
    have h2 := hsubset h
    rcases mem_collapseSpaces _ _ h2 with h3 | h3
    · rcases mem_replaceAllChar _ _ _ _ h3 with h4 | h4
      · exact replaceAllChar_not_mem '\n' ' ' s (by decide) h4
      · exact absurd h4 (by decide)
    · exact absurd h3 (by decide)
  have hr : '\r' ∉ scrubNewlines s := by
    intro h
    have h2 := hsubset h
    rcases mem_collapseSpaces _ _ h2 with h3 | h3
    · exact replaceAllChar_not_mem '\r' ' '
        (replaceAllChar '\n' ' ' s) (by decide) h3
    · exact absurd h3 (by decide)
  have hchain : noDoubleWS (scrubNewlines s) :=
    List.Chain'.infix
      (collapseSpaces_chain (replaceAllChar '\r' ' ' (replaceAllChar '\n' ' ' s)))
      (trimSpace_within _)
  have htrim : trimSpace (scrubNewlines s) = scrubNewlines s := trimSpace_idem _
  refine ⟨?_, hn, hr, hchain, htrim, by decide⟩
  show trimSpace (collapseSpaces (replaceAllChar '\r' ' '
      (replaceAllChar '\n' ' ' (scrubNewlines s)))) = scrubNewlines s
  rw [replaceAllChar_eq_self '\n' ' ' _ hn, replaceAllChar_eq_self '\r' ' ' _ hr,
    collapseSpaces_eq_self _ hchain, htrim]

/-! ### C4: `truncate` -/

/-- C4 counterexample: the claim states that for `n <= 1` the function
returns the single-character ellipsis marker, but `truncate("a", 1)` returns
`"a"`, not `"~"` (the `len(s) <= max` test precedes the `max <= 1` test in
src/active.go:447-458). -/
theorem C4_truncate_counterexample :
    truncate (gs "a") 1 = gs "a" ∧ gs "a" ≠ gs "~" := by
  exact ⟨rfl, by decide⟩

/-- C4 (amended): `truncate(s, n)` never returns a string longer than
`max(n, 0)`; when `len(s) <= n` it returns `s` unchanged; when `n <= 0` it
returns the empty string; and the single-character ellipsis marker is returned
exactly when `n = 1` and the string is longer than 1. -/
theorem C4_truncate_amended (s : GoStr) (n : Int) :
    ((truncate s n).length : Int) ≤ max n 0
    ∧ ((s.length : Int) ≤ n → truncate s n = s)
    ∧ (n ≤ 0 → truncate s n = [])
    ∧ (n = 1 → 1 < s.length → truncate s n = ['~']) := by
  refine ⟨?_, ?_, ?_, ?_⟩
  · unfold truncate
    split_ifs with h0 h1 h2
    · simp
    · omega
    · simp only [List.length_cons, List.length_nil, Nat.cast_one]
      omega
    · simp only [List.length_append, List.length_take, List.length_cons, List.length_nil]
      push_cast
      omega
  · intro hle
    unfold truncate
    split_ifs with h0
    · have hz : s.length = 0 := by omega
      rw [List.length_eq_zero.mp hz]
    · rfl
  · intro h0
    unfold truncate
    rw [if_pos h0]
  · intro hn hlen
    unfold truncate
    split_ifs with h0 h1 h2
    · omega
    · omega
    · rfl
    · omega

/-- C4 witness: the amended theorem applied at concrete inputs. -/
theorem C4_truncate_amended_witness :
    truncate (gs "ab") 5 = gs "ab" ∧ truncate (gs "ab") 0 = [] ∧
      truncate (gs "abc") 1 = ['~'] :=
  ⟨(C4_truncate_amended (gs "ab") 5).2.1 (by decide),
   (C4_truncate_amended (gs "ab") 0).2.2.1 (by decide),
   (C4_truncate_amended (gs "abc") 1).2.2.2 rfl (by decide)⟩

/-! ### C10: duplicate profile sections -/

/-- A one-character prefix pins down the head of a list. -/
theorem isPrefixOf_single (c : Char) (l : GoStr) (h : List.isPrefixOf [c] l = true) :
    ∃ rest, l = c :: rest := by
  cases l with
  | nil => simp [List.isPrefixOf] at h
  | cons a rest =>
    simp only [List.isPrefixOf, List.isPrefixOf_nil_left, Bool.and_true, beq_iff_eq] at h
    exact ⟨rest, by rw [h]⟩

/-- Processing a header line for the requested service resets the accumulated
configuration, whatever the prior state was. -/
theorem processConfigLine_header (serviceName : GoStr) (st : GoStr × DBConfig)
    (line : GoStr) (h : isHeaderFor serviceName line) :
    processConfigLine serviceName st line = (serviceName, emptyDBConfig) := by
  obtain ⟨h1, h2, h3⟩ := h
  obtain ⟨rest, hr⟩ := isPrefixOf_single '[' (trimSpace line) h1
  unfold processConfigLine
  rw [hr] at h1 h2 h3 ⊢
  simp only [List.isEmpty_cons, Bool.false_or]
  rw [show List.isPrefixOf (gs "#") ('[' :: rest) = false from by simp [gs, List.isPrefixOf]]
  simp only [Bool.false_eq_true, if_false, h1, h2, Bool.and_self, if_true, h3, if_pos rfl]

/-- C10: when the profile file contains several sections with the requested
name, resolution depends only on the part of the file starting at the last
such header: every earlier line is discarded because a matching header resets
the accumulated parameters.  Consequently the returned parameters are those of
the last matching section. -/
theorem C10_last_profile_section_wins (serviceName hline : GoStr) (A B : List GoStr)
    (h : isHeaderFor serviceName hline) :
    getDBConfigLines serviceName (A ++ hline :: B)
      = getDBConfigLines serviceName (hline :: B) := by
  unfold getDBConfigLines
  have key : ∀ st : GoStr × DBConfig,
      (hline :: B).foldl (processConfigLine serviceName) st
        = B.foldl (processConfigLine serviceName) (serviceName, emptyDBConfig) := by
    intro st
    rw [List.foldl_cons, processConfigLine_header serviceName st hline h]
  rw [List.foldl_append, key, key]

/-- C10 witness: a file with two `[p]` sections resolves to the parameters of
the second one (with the port defaulted). -/
theorem C10_last_profile_section_wins_witness :
    getDBConfigLines (gs "p")
        ([gs "[p]", gs "host=a", gs "port=7"] ++ (gs "[p]") :: [gs "host=b"])
      = getDBConfigLines (gs "p") ((gs "[p]") :: [gs "host=b"])
    ∧ getDBConfigLines (gs "p") ((gs "[p]") :: [gs "host=b"])
      = some { Host := gs "b", Port := gs "5432", Database := [], User := [], Password := [] } :=
  ⟨C10_last_profile_section_wins (gs "p") (gs "[p]")
      [gs "[p]", gs "host=a", gs "port=7"] [gs "host=b"]
      (by unfold isHeaderFor; exact ⟨by decide, by decide, by decide⟩),
   by decide⟩

/-! ### C1 and C2: selection across Active-view refreshes -/

/-- `updateDetail` touches only the detail fields. -/
theorem updateDetail_proj (av : ActiveView) (l : List ActiveProcess) :
    (updateDetail av l).SelectedPID = av.SelectedPID ∧
    (updateDetail av l).SelectedIndex = av.SelectedIndex := by
  unfold updateDetail
  split
  · exact ⟨rfl, rfl⟩
  · split_ifs with h
    · exact ⟨rfl, rfl⟩
    · split <;> exact ⟨rfl, rfl⟩

/-- `ensureVisible` touches only the scroll offset. -/
theorem ensureVisible_proj (av : ActiveView) :
    (ensureVisible av).SelectedPID = av.SelectedPID ∧
    (ensureVisible av).SelectedIndex = av.SelectedIndex := by
  unfold ensureVisible
  split_ifs <;> exact ⟨rfl, rfl⟩

/-- Behaviour of the clamp branch: for a non-empty list the index is clamped
to `min` of the old index and the last position and the PID re-anchored; for
an empty list the index becomes 0 and the PID is left unchanged. -/
theorem clampSelection_spec (av : ActiveView) (l : List ActiveProcess) :
    (l ≠ [] →
      (clampSelection av l).SelectedIndex = min av.SelectedIndex (l.length - 1) ∧
      (clampSelection av l).SelectedPID
        = (l.getD (min av.SelectedIndex (l.length - 1)) default).PID) ∧
    (l = [] →
      (clampSelection av l).SelectedIndex = 0 ∧
      (clampSelection av l).SelectedPID = av.SelectedPID) := by
  constructor
  · intro hne
    have hlen : 0 < l.length := List.length_pos.mpr hne
    by_cases hge : av.SelectedIndex ≥ l.length
    · have hmin : min av.SelectedIndex (l.length - 1) = l.length - 1 := by omega
      simp only [clampSelection, if_pos hlen, if_pos hge, hmin]
      exact ⟨by rw [(ensureVisible_proj _).2], by rw [(ensureVisible_proj _).1]⟩
    · have hmin : min av.SelectedIndex (l.length - 1) = av.SelectedIndex := by omega
      simp only [clampSelection, if_pos hlen, if_neg hge, hmin]
      exact ⟨by rw [(ensureVisible_proj _).2], by rw [(ensureVisible_proj _).1]⟩
  · intro hnil
    subst hnil
    have hz : ¬(([] : List ActiveProcess).length > 0) := by simp
    have hge : av.SelectedIndex ≥ ([] : List ActiveProcess).length := by simp
    simp only [clampSelection, if_pos hge, if_neg hz]
    exact ⟨by rw [(ensureVisible_proj _).2], by rw [(ensureVisible_proj _).1]⟩

/-- When the anchored PID is non-zero and present in the refreshed list,
`UpdateSelection` re-derives the index as the first position of that PID and
leaves the anchor unchanged. -/
theorem UpdateSelection_found (av : ActiveView) (l : List ActiveProcess)
    (h0 : av.SelectedPID ≠ 0) (hmem : av.SelectedPID ∈ l.map ActiveProcess.PID) :
    (UpdateSelection av l).SelectedIndex = l.findIdx (fun p => p.PID == av.SelectedPID) ∧
    (UpdateSelection av l).SelectedPID = av.SelectedPID := by
  have hA : (updateDetail { av with Processes := l } l).SelectedPID = av.SelectedPID :=
    (updateDetail_proj { av with Processes := l } l).1
  obtain ⟨x, hx, hpx⟩ := List.mem_map.mp hmem
  have hex : ∃ y, y ∈ l ∧ (fun p => p.PID == av.SelectedPID) y = true :=
    ⟨x, hx, by simp [hpx]⟩
  have hfind := List.findIdx?_eq_some_of_exists hex
  simp only [UpdateSelection]
  rw [hA, if_pos h0, hfind]
  exact ⟨(ensureVisible_proj _).2, by rw [(ensureVisible_proj _).1]⟩

/-- C1 counterexample: the claim as stated fails for PID 0 (the unset
sentinel).  Both lists contain a process with PID 0 and the view's
selectedPID is 0, yet after the two refreshes the selected index is 0 while
PID 0 sits at index 1 of the second list: the search loop is guarded by
`av.SelectedPID != 0` (src/active.go:171), so the index is not re-derived. -/
theorem C1_pid_anchor_counterexample :
    newActiveView.SelectedPID = 0 ∧
    (0 : Int) ∈ [pidProcess 0].map ActiveProcess.PID ∧
    (0 : Int) ∈ [pidProcess 7, pidProcess 0].map ActiveProcess.PID ∧
    (UpdateSelection (UpdateSelection newActiveView [pidProcess 0])
        [pidProcess 7, pidProcess 0]).SelectedIndex
      ≠ [pidProcess 7, pidProcess 0].findIdx (fun q => q.PID == 0) := by
  refine ⟨rfl, by decide, by decide, by decide⟩

/-- C1 (amended): for every NON-ZERO pid `p` present in both lists, applying
`UpdateSelection` with the anchor `p` and then again on the second list yields
the index of `p` in the second list, regardless of the prior index — the
index is re-derived from the PID anchor. -/
theorem C1_pid_anchor_amended (av : ActiveView) (l1 l2 : List ActiveProcess) (p : Int)
    (hp : av.SelectedPID = p) (h0 : p ≠ 0)
    (h1 : p ∈ l1.map ActiveProcess.PID) (h2 : p ∈ l2.map ActiveProcess.PID) :
    (UpdateSelection (UpdateSelection av l1) l2).SelectedIndex
      = l2.findIdx (fun q => q.PID == p) := by
  subst hp
  obtain ⟨hi1, hpid1⟩ := UpdateSelection_found av l1 h0 h1
  obtain ⟨hi2, hpid2⟩ := UpdateSelection_found (UpdateSelection av l1) l2
    (by rw [hpid1]; exact h0) (by rw [hpid1]; exact h2)
  rw [hi2, hpid1]

/-- C1 witness: the amended theorem on the scenario of
`TestActiveViewSelectionPreservation` (src/active_test.go): PID 200 moves
from index 1 to index 2 and the selection follows it. -/
theorem C1_pid_anchor_amended_witness :
    (UpdateSelection (UpdateSelection
        { newActiveView with SelectedIndex := 1, SelectedPID := 200 }
        [pidProcess 100, pidProcess 200, pidProcess 300])
        [pidProcess 50, pidProcess 100, pidProcess 200, pidProcess 300]).SelectedIndex
      = [pidProcess 50, pidProcess 100, pidProcess 200, pidProcess 300].findIdx
          (fun q => q.PID == 200) ∧
    [pidProcess 50, pidProcess 100, pidProcess 200, pidProcess 300].findIdx
        (fun q => q.PID == 200) = 2 :=
  ⟨C1_pid_anchor_amended _ _ _ 200 rfl (by decide) (by decide) (by decide), by decide⟩

/-- C2: when the previously selected PID does not occur in the refreshed
list, the selected index is clamped to the last valid position (`min` of the
old index and `len-1`; 0 for the empty list) and the anchor is re-pointed at
the process now at that index (unchanged — in particular still unset if it
was unset — for the empty list).  src/active.go:181-192. -/
theorem C2_pid_absent_clamps (av : ActiveView) (l : List ActiveProcess)
    (hmem : av.SelectedPID ∉ l.map ActiveProcess.PID) :
    (l ≠ [] →
      (UpdateSelection av l).SelectedIndex = min av.SelectedIndex (l.length - 1) ∧
      (UpdateSelection av l).SelectedPID
        = (l.getD (min av.SelectedIndex (l.length - 1)) default).PID) ∧
    (l = [] →
      (UpdateSelection av l).SelectedIndex = 0 ∧
      (UpdateSelection av l).SelectedPID = av.SelectedPID) := by
  have hA : (updateDetail { av with Processes := l } l).SelectedPID = av.SelectedPID :=
    (updateDetail_proj { av with Processes := l } l).1
  have hAidx : (updateDetail { av with Processes := l } l).SelectedIndex = av.SelectedIndex :=
    (updateDetail_proj { av with Processes := l } l).2
  have hnone : l.findIdx? (fun p => p.PID == av.SelectedPID) = none := by
    rw [List.findIdx?_eq_none_iff]
    intro x hx
    simp only [beq_eq_false_iff_ne, ne_eq]
    intro hcontra
    exact hmem (List.mem_map.mpr ⟨x, hx, hcontra⟩)
  have key : UpdateSelection av l = clampSelection (updateDetail { av with Processes := l } l) l := by
    simp only [UpdateSelection]
    rw [hA]
    by_cases hz : av.SelectedPID = 0
    · rw [if_neg (by simp [hz])]
    · rw [if_pos hz, hnone]
  rw [key]
  have hspec := clampSelection_spec (updateDetail { av with Processes := l } l) l
  rw [hA, hAidx] at hspec
  exact hspec

/-- C2 witness: anchor 999 vanishes from a two-element list while the stored
index is 5; the index clamps to 1 and the anchor re-points to PID 2; and on
an empty refresh the index clamps to 0 with the anchor untouched. -/
theorem C2_pid_absent_clamps_witness :
    (UpdateSelection clampWitnessView [pidProcess 1, pidProcess 2]).SelectedIndex = 1 ∧
    (UpdateSelection clampWitnessView [pidProcess 1, pidProcess 2]).SelectedPID = 2 ∧
    (UpdateSelection clampWitnessView []).SelectedIndex = 0 ∧
    (UpdateSelection clampWitnessView []).SelectedPID = 999 := by
  have h := C2_pid_absent_clamps clampWitnessView [pidProcess 1, pidProcess 2] (by decide)
  have he := C2_pid_absent_clamps clampWitnessView [] (by decide)
  obtain ⟨h1, h2⟩ := h.1 (by decide)
  obtain ⟨h3, h4⟩ := he.2 rfl
  exact ⟨by rw [h1]; decide, by rw [h2]; decide, by rw [h3], by rw [h4]; decide⟩

/-! ### C5: refresh cooldown -/

/-- C5 counterexample: with the last refresh stamped at 0 ms, manual refresh
key events at 600 ms and 700 ms — 100 ms apart — BOTH dispatch an execution:
`lastRefreshAt` is only stamped when a result arrives
(src/handlers.go:365-373), not at dispatch, so the cooldown does not suppress
the second event while the first query is still in flight. -/
theorem C5_refresh_cooldown_counterexample :
    (handleRefreshKey refreshDemoModel 600).2.isSome = true ∧
    (handleRefreshKey (handleRefreshKey refreshDemoModel 600).1 700).2.isSome = true ∧
    (700 : Int) - 600 < 500 :=
  ⟨by decide, by decide, by decide⟩

/-- A manual refresh key event with an elapsed cooldown dispatches an
execution. -/
theorem handleRefreshKey_dispatches (m : Model) (now : Int)
    (hq : m.queries.length > 0) (hc : canRefresh m now = true) :
    (handleRefreshKey m now).2.isSome = true := by
  unfold handleRefreshKey
  rw [if_pos ⟨hq, hc⟩]
  rfl

/-- A manual refresh key event within the cooldown window dispatches
nothing. -/
theorem handleRefreshKey_suppressed (m : Model) (now : Int)
    (h : canRefresh m now = false) :
    (handleRefreshKey m now).2 = none := by
  have hc : ¬(m.queries.length > 0 ∧ canRefresh m now = true) := by
    rintro ⟨-, hcr⟩
    rw [h] at hcr
    cases hcr
  unfold handleRefreshKey
  rw [if_neg hc]

/-- C5 (amended): two manual refresh key events less than 500 ms apart result
in exactly one dispatch provided the first query's result arrives before the
second key event; the cooldown measures from the last completed refresh. -/
theorem C5_refresh_cooldown_amended (m : Model) (res : GoStr) (t1 tr t2 : Int)
    (hq : m.queries.length > 0) (h1 : canRefresh m t1 = true)
    (h3 : tr ≤ t2) (h4 : t2 - tr < 500) :
    (handleRefreshKey m t1).2.isSome = true ∧
    (handleRefreshKey (handleQueryResult (handleRefreshKey m t1).1 res tr) t2).2 = none := by
  refine ⟨handleRefreshKey_dispatches m t1 hq h1, ?_⟩
  apply handleRefreshKey_suppressed
  unfold canRefresh
  rw [show (handleQueryResult (handleRefreshKey m t1).1 res tr).lastRefreshAt = tr from rfl]
  simp only [decide_eq_false_iff_not]
  omega

/-- C5 witness: the amended theorem at concrete times 600, 650, 700 ms. -/
theorem C5_refresh_cooldown_amended_witness :
    (handleRefreshKey refreshDemoModel 600).2.isSome = true ∧
    (handleRefreshKey
        (handleQueryResult (handleRefreshKey refreshDemoModel 600).1 (gs "ok") 650) 700).2
      = none :=
  C5_refresh_cooldown_amended refreshDemoModel (gs "ok") 600 650 700
    (by decide) (by decide) (by decide) (by decide)

/-! ### C6: ticks in modal modes -/

/-- C6 counterexample: a Tick processed while search mode is open DOES
dispatch a query execution — `handleTickMsg` (src/handlers.go:395-402) checks
only the queue length and the cooldown, never the mode flags. -/
theorem C6_tick_modal_counterexample :
    searchTickModel.searchMode = true ∧
    (handleTickMsg searchTickModel 1000).2 = some searchTickModel.lastQuery ∧
    (handleTickMsg searchTickModel 1000).2 ≠ none :=
  ⟨rfl, by decide, by decide⟩

/-- C6 (amended): a Tick dispatches re-execution of the last query whenever
the query list is non-empty and the cooldown has elapsed, regardless of the
Search, Edit or Help mode flags — the tick is not suppressed in modal
modes. -/
theorem C6_tick_any_mode_amended (m : Model) (now : Int)
    (hmode : m.searchMode = true ∨ m.editMode = true ∨ m.showHelp = true)
    (hq : m.queries.length > 0) (hc : canRefresh m now = true) :
    (handleTickMsg m now).2 = some m.lastQuery := by
  unfold handleTickMsg
  rw [if_pos ⟨hq, hc⟩]

/-- C6 witness: the amended theorem at the concrete search-mode session. -/
theorem C6_tick_any_mode_amended_witness :
    (handleTickMsg searchTickModel 1000).2 = some searchTickModel.lastQuery :=
  C6_tick_any_mode_amended searchTickModel 1000 (Or.inl rfl) (by decide) (by decide)

/-! ### C7 and C8: saving, deleting and the temporary-order mapping -/

/-- Every record of an upserted store is the new record or an old one. -/
theorem mem_upsert (store : List Query) (nq q : Query) (h : q ∈ upsert store nq) :
    q = nq ∨ q ∈ store := by
  induction store with
  | nil =>
    simp only [upsert, List.mem_singleton] at h
    exact Or.inl h
  | cons r rest ih =>
    simp only [upsert] at h
    split_ifs at h with hr
    · rcases List.mem_cons.mp h with h1 | h1
      · exact Or.inl h1
      · exact Or.inr (List.mem_cons_of_mem r h1)
    · rcases List.mem_cons.mp h with h1 | h1
      · exact Or.inr (by rw [h1]; exact List.mem_cons_self r rest)
      · rcases ih h1 with h2 | h2
        · exact Or.inl h2
        · exact Or.inr (List.mem_cons_of_mem r h2)

/-- The name of the record built by the save handler. -/
theorem saveNewQuery_Name (m : Model) :
    (saveNewQuery m).Name = (if m.nameInput = [] then gs "New Query" else m.nameInput) := by
  simp only [saveNewQuery]
  split
  · split
    · split
      · rfl
      · rfl
    · rfl
  · rfl

/-- `ensureValidSelection` touches only `selected`. -/
theorem ensureValidSelection_proj (m : Model) :
    (ensureValidSelection m).store = m.store ∧
    (ensureValidSelection m).tempQueries = m.tempQueries ∧
    (ensureValidSelection m).queries = m.queries := by
  simp only [ensureValidSelection]
  split_ifs <;> exact ⟨rfl, rfl, rfl⟩

/-- `addTemporaryQuery` never touches the store. -/
theorem addTemporaryQuery_store (m : Model) (q : Query) :
    (addTemporaryQuery m q).store = m.store := by
  unfold addTemporaryQuery
  split_ifs <;> rfl

/-- The save handler always dispatches execution of the saved record. -/
theorem handleSaveQuery_dispatch (m : Model) :
    (handleSaveQuery m).2 = some (saveNewQuery m) := rfl

/-- The store after a save is exactly the upsert of the saved record. -/
theorem handleSaveQuery_store (m : Model) :
    (handleSaveQuery m).1.store = upsert m.store (saveNewQuery m) := by
  simp only [handleSaveQuery]
  rw [(ensureValidSelection_proj _).1]
  split
  · split
    · rw [addTemporaryQuery_store]
    · rfl
  · split
    · rw [addTemporaryQuery_store]
    · rfl

/-- Lookup after a Go map assignment of the same key. -/
theorem lookupTemp_assocSet_self (tq : List (GoStr × Int)) (n : GoStr) (v : Int) :
    lookupTemp (assocSet tq n v) n = some v := by
  induction tq with
  | nil => simp [assocSet, lookupTemp]
  | cons p rest ih =>
    simp only [assocSet]
    split_ifs with hp
    · simp [lookupTemp]
    · simp only [lookupTemp, if_neg hp]
      exact ih

/-- Assigning one key of a Go map leaves lookups of other keys unchanged. -/
theorem lookupTemp_assocSet_other (tq : List (GoStr × Int)) (k n : GoStr) (v : Int)
    (hkn : k ≠ n) :
    lookupTemp (assocSet tq k v) n = lookupTemp tq n := by
  induction tq with
  | nil => simp [assocSet, lookupTemp, hkn]
  | cons p rest ih =>
    simp only [assocSet]
    split_ifs with hp
    · simp [lookupTemp, hp, hkn]
    · simp [lookupTemp, ih]

/-- A Go map assignment never removes keys. -/
theorem lookupTemp_assocSet_isSome (tq : List (GoStr × Int)) (k n : GoStr) (v : Int)
    (h : (lookupTemp tq n).isSome = true) :
    (lookupTemp (assocSet tq k v) n).isSome = true := by
  by_cases hkn : k = n
  · subst hkn
    rw [lookupTemp_assocSet_self]
    rfl
  · rw [lookupTemp_assocSet_other tq k n v hkn]
    exact h

/-- Lookup after a Go map deletion of the same key. -/
theorem lookupTemp_assocErase_self (tq : List (GoStr × Int)) (n : GoStr) :
    lookupTemp (assocErase tq n) n = none := by
  induction tq with
  | nil => rfl
  | cons p rest ih =>
    simp only [assocErase]
    split_ifs with hp
    · exact ih
    · simp only [lookupTemp, if_neg hp]
      exact ih

/-- Promoting a hidden query puts it in the visible tab list and in the
temporary-order mapping. -/
theorem addTemporaryQuery_adds (m : Model) (q : Query) (h : q.OrderPosition = none) :
    q.Name ∈ (addTemporaryQuery m q).queries.map Query.Name ∧
    isTemporaryQuery (addTemporaryQuery m q) q.Name = true := by
  unfold addTemporaryQuery
  rw [if_pos h]
  constructor
  · simp
  · simp only [isTemporaryQuery]
    rw [lookupTemp_assocSet_self]
    rfl

/-- The save handler never removes a key from the temporary-order mapping. -/
theorem handleSaveQuery_keeps_temp (m : Model) (name : GoStr)
    (h : isTemporaryQuery m name = true) :
    isTemporaryQuery (handleSaveQuery m).1 name = true := by
  simp only [isTemporaryQuery] at h ⊢
  simp only [handleSaveQuery]
  rw [(ensureValidSelection_proj _).2.1]
  split
  · split
    · unfold addTemporaryQuery
      split_ifs with ho
      · exact lookupTemp_assocSet_isSome _ _ _ _ h
      · exact h
    · exact h
  · split
    · unfold addTemporaryQuery
      split_ifs with ho
      · exact lookupTemp_assocSet_isSome _ _ _ _ h
      · exact h
    · exact h

/-- An option that is not `isSome` is `none`. -/
theorem lookupTemp_of_not_isSome (tq : List (GoStr × Int)) (n : GoStr)
    (h : ¬((lookupTemp tq n).isSome = true)) : lookupTemp tq n = none := by
  cases hx : lookupTemp tq n with
  | none => rfl
  | some v => exact absurd (by rw [hx]; rfl) h

/-- After deleting the edited query, its name is no longer in the
temporary-order mapping (it is explicitly erased when it was temporary, and
was absent otherwise). -/
theorem handleDeleteQuery_temp (m : Model) (hne : m.editQuery.Name ≠ []) :
    lookupTemp (handleDeleteQuery m).1.tempQueries m.editQuery.Name = none := by
  simp only [handleDeleteQuery, if_pos hne]
  rw [(ensureValidSelection_proj _).2.1]
  split_ifs <;>
    first
      | exact lookupTemp_assocErase_self _ _
      | exact lookupTemp_of_not_isSome _ _ (by assumption)

/-! ### C7: saving with an empty name -/

/-- C7 counterexample: saving from the editor with an empty name field is NOT
refused — a record named "New Query" is persisted to the store
(src/editor.go:124-129 substitutes the fallback name). -/
theorem C7_empty_name_counterexample :
    emptyNameModel.nameInput = [] ∧
    (handleSaveQuery emptyNameModel).1.store.map Query.Name = [gs "New Query"] ∧
    gs "New Query" ≠ emptyNameModel.nameInput :=
  ⟨rfl, by decide, by decide⟩

/-- C7 (amended): saving with an empty name field persists (and dispatches)
the query under the fallback name "New Query" rather than refusing the save;
no record with an empty name is ever persisted. -/
theorem C7_empty_name_amended (m : Model) (hname : m.nameInput = [])
    (hstore : ∀ q ∈ m.store, q.Name ≠ []) :
    ((handleSaveQuery m).2 = some (saveNewQuery m) ∧
      (saveNewQuery m).Name = gs "New Query") ∧
    (∀ q ∈ (handleSaveQuery m).1.store, q.Name ≠ []) := by
  refine ⟨⟨handleSaveQuery_dispatch m, ?_⟩, ?_⟩
  · rw [saveNewQuery_Name, if_pos hname]
  · intro q hq
    rw [handleSaveQuery_store] at hq
    rcases mem_upsert m.store (saveNewQuery m) q hq with h | h
    · rw [h, saveNewQuery_Name, if_pos hname]
      decide
    · exact hstore q h

/-- C7 witness: the amended theorem at the concrete empty-name editor
session. -/
theorem C7_empty_name_amended_witness :
    ((handleSaveQuery emptyNameModel).2 = some (saveNewQuery emptyNameModel) ∧
      (saveNewQuery emptyNameModel).Name = gs "New Query") ∧
    (∀ q ∈ (handleSaveQuery emptyNameModel).1.store, q.Name ≠ []) :=
  C7_empty_name_amended emptyNameModel rfl (by decide)

/-! ### C8: the temporary-order mapping invariant -/

/-- C8 counterexample: a reachable session state violating the invariant.
From a store with visible X and hidden Y: promote Y via search (it gains a
temporary order), then create and save a new query Z with an explicit order.
The save reloads the visible tab list from the store, where Y is still
hidden, so Y disappears from `queries` while `tempQueries` still holds it. -/
theorem C8_temp_invariant_counterexample :
    Reachable c8final ∧ ¬ TempInvariant c8final := by
  constructor
  · exact Reachable.saveKey
      (Reachable.typeEditor (gs "Z") [] (gs "3") (gs "sz")
        (Reachable.pressNew
          (Reachable.searchKey enterKeyMsg
            (Reachable.searchKey downKeyMsg
              (Reachable.searchKey downKeyMsg
                (Reachable.pressSearch (Reachable.init c8Store) rfl rfl)
                rfl rfl)
              rfl rfl)
            rfl rfl)
          (by decide) (by decide))
        rfl)
      rfl
  · intro h
    exact absurd (h (gs "Y", 2) (by decide)) (by decide)

/-- C8 (amended): a name gains a visible tab entry at the moment it is added
to the temporary-order mapping, and it is removed from the mapping when the
edited query is deleted; saving — even with an explicit real order — never
removes a name from the mapping, and (per the counterexample) the visible-tab
half of the invariant is not preserved by the reloads done on save/delete. -/
theorem C8_temp_mapping_amended (m : Model) (q : Query) :
    (q.OrderPosition = none →
      q.Name ∈ (addTemporaryQuery m q).queries.map Query.Name ∧
      isTemporaryQuery (addTemporaryQuery m q) q.Name = true) ∧
    (m.editQuery.Name ≠ [] →
      lookupTemp (handleDeleteQuery m).1.tempQueries m.editQuery.Name = none) ∧
    (∀ name : GoStr, isTemporaryQuery m name = true →
      isTemporaryQuery (handleSaveQuery m).1 name = true) :=
  ⟨fun h => addTemporaryQuery_adds m q h,
   fun hne => handleDeleteQuery_temp m hne,
   fun name h => handleSaveQuery_keeps_temp m name h⟩

/-- C8 witness: the amended theorem at a concrete session — promoting the
hidden H, deleting the edited X, and saving while T is temporary. -/
theorem C8_temp_mapping_amended_witness :
    (gs "H" ∈ (addTemporaryQuery c8WitnessModel c8WitnessHidden).queries.map Query.Name ∧
      isTemporaryQuery (addTemporaryQuery c8WitnessModel c8WitnessHidden) (gs "H") = true) ∧
    lookupTemp (handleDeleteQuery c8WitnessModel).1.tempQueries (gs "X") = none ∧
    isTemporaryQuery (handleSaveQuery c8WitnessModel).1 (gs "T") = true := by
  have h := C8_temp_mapping_amended c8WitnessModel c8WitnessHidden
  exact ⟨h.1 rfl, h.2.1 (by decide), h.2.2 (gs "T") (by decide)⟩

/-! ### C9: Enter on an empty search result -/

/-- C9: in search mode, when the filtered candidate list is empty, pressing
Enter leaves the session state completely unchanged and dispatches no query
execution (src/handlers.go:124-145, the `len(m.filteredQueries) > 0` guard). -/
theorem C9_search_enter_empty_noop (m : Model) (msg : KeyMsg)
    (hsearch : m.searchMode = true) (hempty : m.filteredQueries = [])
    (htype : msg.typeIsEscape = false) (hstr : msg.str = gs "enter") :
    handleSearchModeKeys m msg = (m, none) := by
  have hesc : ¬(msg.typeIsEscape = true ∨ msg.str = gs "escape" ∨ msg.str = gs "esc" ∨
      msg.str = gs "ctrl+[") := by
    rw [htype, hstr]
    decide
  unfold handleSearchModeKeys
  rw [if_neg hesc, if_pos hstr, hempty]
  rw [if_neg (by decide : ¬(List.length ([] : List Query) > 0))]

/-- C9 witness: the theorem at a concrete search-mode session with an empty
filter result. -/
theorem C9_search_enter_empty_noop_witness :
    handleSearchModeKeys searchEmptyModel enterKeyMsg = (searchEmptyModel, none) :=
  C9_search_enter_empty_noop searchEmptyModel enterKeyMsg rfl rfl rfl rfl

end PSQ
